import Mathlib

set_option maxHeartbeats 1600000

/-!
Verification of the Excel AI bot core (excel_store.py, llm_agent.py,
feedback_store.py) against its design document.  The Python functions are
shallowly embedded as executable Lean definitions over `String` / `List`;
machine-independent behaviour (string handling, validation, catalog and
feedback-log bookkeeping, the SHA-256 fingerprint) is translated directly
from the source.
-/

/-! ## Python string primitives used by the source -/

/-- Whitespace characters stripped by Python `str.strip()` (ASCII range). -/
def isPySpace (c : Char) : Bool :=
  c == ' ' || c == '\t' || c == '\n' || c == '\r' || c == '\x0B' || c == '\x0C'

/-- Drop characters satisfying `p` from both ends of a character list;
`stripBy isPySpace` models `str.strip()` and `stripBy (fun c => c == u)`
models `str.strip(u)`. -/
def stripBy (p : Char → Bool) (l : List Char) : List Char :=
  ((l.dropWhile p).reverse.dropWhile p).reverse

/-- Python `s.strip()`. -/
def pyStrip (s : String) : String := String.mk (stripBy isPySpace s.data)

/-- Python `s.rstrip(";")`: removes every trailing semicolon. -/
def rstripSemis (s : String) : String :=
  String.mk ((s.data.reverse.dropWhile (fun c => c == ';')).reverse)

/-- ASCII lower-casing of one character, as Python `str.lower()` does on the
ASCII range (the only range the source's keyword scan relies on). -/
def lowerChar (c : Char) : Char :=
  if 'A' ≤ c ∧ c ≤ 'Z' then Char.ofNat (c.toNat + 32) else c

/-- Python `s.lower()`. -/
def lowerStr (s : String) : String := String.mk (s.data.map lowerChar)

/-- Python `s.startswith(n)`. -/
def strStartsWith (n s : String) : Bool := n.data.isPrefixOf s.data

/-- Python `n in s` (substring containment). -/
def hasSubstr (n s : String) : Bool := s.data.tails.any (fun t => n.data.isPrefixOf t)

/-! ## The SQL safety gate (`ExcelStore._validate_sql` / `llm_agent._sanitize_sql`) -/

/-- The cleanup both validators perform first:
`(sql or "").strip().rstrip(";").strip()`. -/
def cleanSql (s : String) : String := pyStrip (rstripSemis (pyStrip s))

/-- Whether a semicolon occurs anywhere in the string (`";" in sql`). -/
def hasSemi (s : String) : Bool := s.data.any (fun c => c == ';')

/-- The banned keyword list of both validators. -/
def bannedKws : List String :=
  ["drop ", "delete ", "update ", "insert ", "create ", "alter ", "truncate ",
   "grant ", "revoke "]

/-- Whether the lower-cased string contains a banned mutation keyword. -/
def hasBannedKw (s : String) : Bool :=
  bannedKws.any (fun b => hasSubstr b (lowerStr s))

/-- Whether the lower-cased string starts with `select` or `with`. -/
def startsOk (s : String) : Bool :=
  strStartsWith "select" (lowerStr s) || strStartsWith "with" (lowerStr s)

/-- Embedding of `ExcelStore._validate_sql` (excel_store.py).  The Python
function raises `ValueError` on the three rejection branches; the embedding
returns `none` there and `some` of the cleaned SQL on success. -/
def validate_sql (s : String) : Option String :=
  let t := cleanSql s
  if hasSemi t then none
  else if hasBannedKw t then none
  else if startsOk t then some t
  else none

/-- Embedding of `llm_agent._sanitize_sql`, whose body is identical to
`ExcelStore._validate_sql`. -/
def sanitize_sql (s : String) : Option String :=
  let t := cleanSql s
  if hasSemi t then none
  else if hasBannedKw t then none
  else if startsOk t then some t
  else none

/-- Removal of at most one trailing semicolon. -/
def rstripOneSemi (s : String) : String :=
  if s.data.getLast? = some ';' then String.mk s.data.dropLast else s

/-- Modelled from the spec: the validator as the spec's words describe it,
which "trims whitespace and at most one trailing statement terminator"
before the semicolon scan (the source's `rstrip(";")` removes every
trailing semicolon instead).  Used only to compare the claim's algorithm
with the source's. -/
def validate_sql_spec (s : String) : Option String :=
  let t := pyStrip (rstripOneSemi (pyStrip s))
  if hasSemi t then none
  else if hasBannedKw t then none
  else if startsOk t then some t
  else none

/-! ## Decimal rendering (Python string formatting of integers) -/

/-- The character of one decimal digit. -/
def decDigit (n : Nat) : Char :=
  match n with
  | 0 => '0' | 1 => '1' | 2 => '2' | 3 => '3' | 4 => '4'
  | 5 => '5' | 6 => '6' | 7 => '7' | 8 => '8' | _ => '9'

/-- Fuel-bounded digit expansion; `fuel` bounds the number of digits and
`natToDec` below always supplies enough. -/
def natToDecAux : Nat → Nat → List Char
  | 0, _ => []
  | fuel + 1, n =>
      if n < 10 then [decDigit n]
      else natToDecAux fuel (n / 10) ++ [decDigit (n % 10)]

/-- Decimal rendering of a natural number, modelling Python's string
formatting of a nonnegative integer. -/
def natToDec (n : Nat) : List Char := natToDecAux (n + 1) n

/-- Value of a decimal digit string (used to invert `natToDec`). -/
def decVal (l : List Char) : Nat :=
  l.foldl (fun acc c => acc * 10 + (c.toNat - 48)) 0

/-! ## Column/table name normalization (`safe_name`) -/

/-- Characters of the class `[a-zA-Z0-9_]`. -/
def isWordChar (c : Char) : Bool :=
  (decide ('a' ≤ c ∧ c ≤ 'z')) || (decide ('A' ≤ c ∧ c ≤ 'Z')) ||
  (decide ('0' ≤ c ∧ c ≤ '9')) || c == '_'

/-- Replace every maximal run of characters satisfying `p` by one
underscore: the effect of `re.sub(class_plus, "_", s)` for a one-or-more
character-class pattern.  The flag records whether the previous character
was part of such a run. -/
def collapseRuns (p : Char → Bool) : Bool → List Char → List Char
  | _, [] => []
  | inRun, c :: cs =>
      if p c then
        if inRun then collapseRuns p true cs
        else '_' :: collapseRuns p true cs
      else c :: collapseRuns p false cs

/-- Embedding of `safe_name` (excel_store.py). -/
def safe_name (s : String) : String :=
  let t1 := collapseRuns (fun c => !isWordChar c) false (stripBy isPySpace s.data)
  let t2 := stripBy (fun c => c == '_') (collapseRuns (fun c => c == '_') false t1)
  if t2.isEmpty then "table" else String.mk (t2.take 80)

/-! ## Table-name collision resolution in `add_excel_file` -/

/-- A collision candidate name: Python `f"{original}_{i}"`. -/
def candName (original : String) (i : Nat) : String :=
  original ++ "_" ++ String.mk (natToDec i)

/-- Bounded version of the while-loop of `add_excel_file`: try
`original_i`, `original_(i+1)`, ... until a name misses `existing`. -/
def uniquifyAux (existing : List String) (original : String) : Nat → Nat → String
  | 0, i => candName original i
  | fuel + 1, i =>
      if candName original i ∈ existing then uniquifyAux existing original fuel (i + 1)
      else candName original i

/-- Resolution of table-name collisions in `ExcelStore.add_excel_file`.
Fuel `existing.length + 1` is provably enough (`uniquifyAux_fresh` below),
so the bounded loop coincides with the source's unbounded while-loop. -/
def uniquify (existing : List String) (original : String) : String :=
  if original ∈ existing then uniquifyAux existing original (existing.length + 1) 2
  else original

/-! ## The catalog (`ExcelStore`) -/

/-- One parsed sheet's grid, as produced by `xls.parse`: its (already
normalized, where relevant) column names and its row count. -/
structure Grid where
  cols : List String
  rows : Nat
deriving DecidableEq

/-- One sheet of the uploaded workbook. -/
structure Sheet where
  sname : String
  grid : Grid
deriving DecidableEq

/-- Catalog metadata recorded per table (`self.tables[tname]`), restricted
to the fields the design document's claims quantify over; the `dtypes` and
`sample` entries are derived from the same grid. -/
structure TableMeta where
  file : String
  sheet : String
  rows : Nat
  cols : List String
deriving DecidableEq

/-- The DuckDB connection plus catalog: the tables registered with the
engine (`self.con.register`) and the metadata map (`self.tables`). -/
structure Store where
  engine : List (String × Grid)
  tables : List (String × TableMeta)
deriving DecidableEq

/-- Python `file_name.rsplit(".", 1)[0]`. -/
def dropExt (s : String) : String :=
  if '.' ∈ s.data then
    String.mk ((s.data.reverse.dropWhile (fun c => !(c == '.'))).tail.reverse)
  else s

/-- One iteration of the sheet loop in `ExcelStore.add_excel_file`:
normalize the column names, resolve a unique table identifier, register
the data frame with the engine and record the catalog metadata. -/
def registerSheet (fileName base : String) (st : Store) (sh : Sheet) : Store :=
  let ncols := sh.grid.cols.map safe_name
  let tname := uniquify (st.tables.map Prod.fst) (safe_name (base ++ "__" ++ sh.sname))
  { engine := st.engine ++ [(tname, ⟨ncols, sh.grid.rows⟩)],
    tables := st.tables ++ [(tname, ⟨fileName, sh.sname, sh.grid.rows, ncols⟩)] }

/-- The sheet loop with Python exception propagation: `xls.parse` may raise
on a sheet, which aborts the loop and keeps every previously registered
sheet. -/
def addSheets (fileName base : String) (st : Store) :
    List (Except String Sheet) → Store × Option String
  | [] => (st, none)
  | Except.error e :: _ => (st, some e)
  | Except.ok sh :: rest => addSheets fileName base (registerSheet fileName base st sh) rest

/-- Embedding of `ExcelStore.add_excel_file`.  `parsed` is the outcome of
`pd.ExcelFile(...)` (error: unparseable bytes) and, per sheet, of
`xls.parse` (error: a failing sheet).  The second component is the
propagated exception, if any. -/
def add_excel_file (st : Store) (fileName : String)
    (parsed : Except String (List (Except String Sheet))) : Store × Option String :=
  match parsed with
  | Except.error e => (st, some e)
  | Except.ok sheets => addSheets fileName (safe_name (dropExt fileName)) st sheets

/-- Engine/catalog consistency: the registered tables and the metadata map
list the same identifiers in the same order and agree on columns and row
counts. -/
def consistentStore (st : Store) : Prop :=
  List.Forall₂ (fun (e : String × Grid) (t : String × TableMeta) =>
    e.1 = t.1 ∧ e.2.cols = t.2.cols ∧ e.2.rows = t.2.rows) st.engine st.tables

/-! ## The feedback store (`feedback_store.py`) -/

/-- A row of the `feedback` table. -/
structure FeedbackRecord where
  id : Nat
  question : String
  catalog_sig : String
  generated_sql : String
  corrected_sql : Option String
  rating : Option Int
  feedback_text : Option String
  created_at : Nat
deriving DecidableEq

/-- The per-row effect of the dynamically built UPDATE of `add_feedback`:
`rating` is included in the SET list only when supplied; `feedback_text`
and `corrected_sql` are always included. -/
def applyFeedback (rating : Option Int) (ftext : String) (csql : Option String)
    (r : FeedbackRecord) : FeedbackRecord :=
  { r with
    rating := match rating with | some v => some v | none => r.rating,
    feedback_text := some ftext,
    corrected_sql := csql }

/-- Embedding of `FeedbackStore.add_feedback`:
`UPDATE feedback SET ... WHERE id=?`. -/
def add_feedback (db : List FeedbackRecord) (recordId : Nat) (rating : Option Int)
    (ftext : String) (csql : Option String) : List FeedbackRecord :=
  db.map (fun r => if r.id = recordId then applyFeedback rating ftext csql r else r)

/-- SQLite `TRIM(x)`: strips spaces from both ends. -/
def sqlTrim (s : String) : String := String.mk (stripBy (fun c => c == ' ') s.data)

/-- The CASE key of the ORDER BY in `best_examples`: 0 when the record
carries a non-null, non-blank corrected query, else 1. -/
def prefKey (r : FeedbackRecord) : Nat :=
  match r.corrected_sql with
  | none => 1
  | some s => if sqlTrim s = "" then 1 else 0

/-- The ORDER BY relation of `best_examples`: corrected-first, then most
recent (larger `created_at`) first. -/
def exRel (a b : FeedbackRecord) : Prop :=
  prefKey a < prefKey b ∨ (prefKey a = prefKey b ∧ b.created_at ≤ a.created_at)

instance : DecidableRel exRel := fun a b =>
  inferInstanceAs (Decidable (prefKey a < prefKey b ∨
    (prefKey a = prefKey b ∧ b.created_at ≤ a.created_at)))

instance : IsTotal FeedbackRecord exRel := ⟨by
  intro a b
  rcases Nat.lt_trichotomy (prefKey a) (prefKey b) with h | h | h
  · exact Or.inl (Or.inl h)
  · rcases Nat.le_total b.created_at a.created_at with h2 | h2
    · exact Or.inl (Or.inr ⟨h, h2⟩)
    · exact Or.inr (Or.inr ⟨h.symm, h2⟩)
  · exact Or.inr (Or.inl h)⟩

instance : IsTrans FeedbackRecord exRel := ⟨by
  intro a b c hab hbc
  rcases hab with h1 | h1 <;> rcases hbc with h2 | h2
  · exact Or.inl (h1.trans h2)
  · exact Or.inl (by omega)
  · exact Or.inl (by omega)
  · exact Or.inr ⟨h1.1.trans h2.1, le_trans h2.2 h1.2⟩⟩

/-- Embedding of `FeedbackStore.best_examples`: the WHERE filter, the
ORDER BY sort and the LIMIT of its SQL statement, over the feedback
table's rows. -/
def best_examples (db : List FeedbackRecord) (sig : String) (limit : Nat) :
    List FeedbackRecord :=
  (List.insertionSort exRel
    (db.filter (fun r => r.catalog_sig == sig && r.rating == some 1))).take limit

/-! ## SHA-256 (`hashlib.sha256`), embedded -/

def M32 : Nat := 4294967296

def add32 (a b : Nat) : Nat := (a + b) % M32

def rotr32 (n x : Nat) : Nat := ((x >>> n) ||| (x <<< (32 - n))) % M32

def bnot32 (x : Nat) : Nat := Nat.xor x (M32 - 1)

/-- The 64 SHA-256 round constants. -/
def shaK : List Nat :=
  [1116352408, 1899447441, 3049323471, 3921009573, 961987163, 1508970993,
   2453635748, 2870763221, 3624381080, 310598401, 607225278, 1426881987,
   1925078388, 2162078206, 2614888103, 3248222580, 3835390401, 4022224774,
   264347078, 604807628, 770255983, 1249150122, 1555081692, 1996064986,
   2554220882, 2821834349, 2952996808, 3210313671, 3336571891, 3584528711,
   113926993, 338241895, 666307205, 773529912, 1294757372, 1396182291,
   1695183700, 1986661051, 2177026350, 2456956037, 2730485921, 2820302411,
   3259730800, 3345764771, 3516065817, 3600352804, 4094571909, 275423344,
   430227734, 506948616, 659060556, 883997877, 958139571, 1322822218,
   1537002063, 1747873779, 1955562222, 2024104815, 2227730452, 2361852424,
   2428436474, 2756734187, 3204031479, 3329325298]

/-- The eight 32-bit working variables. -/
structure H8 where
  a : Nat
  b : Nat
  c : Nat
  d : Nat
  e : Nat
  f : Nat
  g : Nat
  h : Nat

def shaInit : H8 :=
  ⟨1779033703, 3144134277, 1013904242, 2773480762,
   1359893119, 2600822924, 528734635, 1541459225⟩

def smallSig0 (x : Nat) : Nat := Nat.xor (Nat.xor (rotr32 7 x) (rotr32 18 x)) (x >>> 3)

def smallSig1 (x : Nat) : Nat := Nat.xor (Nat.xor (rotr32 17 x) (rotr32 19 x)) (x >>> 10)

def bigSig0 (x : Nat) : Nat := Nat.xor (Nat.xor (rotr32 2 x) (rotr32 13 x)) (rotr32 22 x)

def bigSig1 (x : Nat) : Nat := Nat.xor (Nat.xor (rotr32 6 x) (rotr32 11 x)) (rotr32 25 x)

/-- Split a list into chunks of size `k` (for `k > 0`; the last chunk may
be short). -/
def chunkList (k : Nat) (l : List α) : List (List α) :=
  if h : l.length = 0 ∨ k = 0 then []
  else l.take k :: chunkList k (l.drop k)
termination_by l.length
decreasing_by
  push_neg at h
  rw [List.length_drop]
  omega

/-- Big-endian 32-bit word from four bytes. -/
def wordOfBytes (b : List Nat) : Nat :=
  b.getD 0 0 * 16777216 + b.getD 1 0 * 65536 + b.getD 2 0 * 256 + b.getD 3 0

/-- SHA-256 message padding: 0x80, zeros to 56 mod 64, 8-byte big-endian
bit length. -/
def shaPad (msg : List Nat) : List Nat :=
  let ml := msg.length
  let zeros := (64 + 56 - ((ml + 1) % 64)) % 64
  let bitLen := ml * 8
  msg ++ [128] ++ List.replicate zeros 0 ++
    [(bitLen >>> 56) % 256, (bitLen >>> 48) % 256, (bitLen >>> 40) % 256,
     (bitLen >>> 32) % 256, (bitLen >>> 24) % 256, (bitLen >>> 16) % 256,
     (bitLen >>> 8) % 256, bitLen % 256]

/-- Extend the 16 block words to the 64 schedule words; `acc` holds the
words generated so far, most recent first. -/
def extendW : Nat → List Nat → List Nat
  | 0, acc => acc.reverse
  | n + 1, acc =>
      let w := add32 (add32 (smallSig1 (acc.getD 1 0)) (acc.getD 6 0))
                     (add32 (smallSig0 (acc.getD 14 0)) (acc.getD 15 0))
      extendW n (w :: acc)

/-- One SHA-256 round; `kw` is the pair of round constant and schedule
word. -/
def shaRound (st : H8) (kw : Nat × Nat) : H8 :=
  let s1 := bigSig1 st.e
  let ch := Nat.xor (Nat.land st.e st.f) (Nat.land (bnot32 st.e) st.g)
  let t1 := add32 (add32 (add32 st.h s1) (add32 ch kw.1)) kw.2
  let s0 := bigSig0 st.a
  let mj := Nat.xor (Nat.xor (Nat.land st.a st.b) (Nat.land st.a st.c)) (Nat.land st.b st.c)
  let t2 := add32 s0 mj
  ⟨add32 t1 t2, st.a, st.b, st.c, add32 st.d t1, st.e, st.f, st.g⟩

def compressBlock (st : H8) (block : List Nat) : H8 :=
  let ws := extendW 48 ((chunkList 4 block).map wordOfBytes).reverse
  let t := (shaK.zip ws).foldl shaRound st
  ⟨add32 st.a t.a, add32 st.b t.b, add32 st.c t.c, add32 st.d t.d,
   add32 st.e t.e, add32 st.f t.f, add32 st.g t.g, add32 st.h t.h⟩

def sha256state (msg : List Nat) : H8 :=
  (chunkList 64 (shaPad msg)).foldl compressBlock shaInit

def hexChars : List Char := "0123456789abcdef".data

def hexDigit (n : Nat) : Char := hexChars.getD (n % 16) '0'

def wordHex (w : Nat) : List Char :=
  [hexDigit (w >>> 28), hexDigit (w >>> 24), hexDigit (w >>> 20), hexDigit (w >>> 16),
   hexDigit (w >>> 12), hexDigit (w >>> 8), hexDigit (w >>> 4), hexDigit w]

def digestHex (st : H8) : List Char :=
  wordHex st.a ++ wordHex st.b ++ wordHex st.c ++ wordHex st.d ++
  wordHex st.e ++ wordHex st.f ++ wordHex st.g ++ wordHex st.h

/-- `hashlib.sha256(bytes).hexdigest()[:16]`. -/
def sha256hex16 (msg : List Nat) : String :=
  String.mk ((digestHex (sha256state msg)).take 16)

/-! ## The catalog signature (`ExcelStore.catalog_signature`) -/

/-- Four-hex-digit escape `\uXXXX`. -/
def uEsc4 (n : Nat) : List Char :=
  ['\\', 'u', hexDigit (n >>> 12), hexDigit (n >>> 8), hexDigit (n >>> 4), hexDigit n]

/-- JSON escaping of one character as `json.dumps` does with the default
`ensure_ascii=True`: short escapes, `\uXXXX` for other control or
non-ASCII characters, surrogate pairs beyond the basic plane. -/
def jsonEscChar (c : Char) : List Char :=
  if c = '"' then ['\\', '"']
  else if c = '\\' then ['\\', '\\']
  else if c = '\n' then ['\\', 'n']
  else if c = '\t' then ['\\', 't']
  else if c = '\r' then ['\\', 'r']
  else if c = '\x08' then ['\\', 'b']
  else if c = '\x0C' then ['\\', 'f']
  else if c.toNat < 32 then uEsc4 c.toNat
  else if c.toNat ≤ 127 then [c]
  else if c.toNat < 65536 then uEsc4 c.toNat
  else uEsc4 (55296 + ((c.toNat - 65536) >>> 10)) ++
       uEsc4 (56320 + ((c.toNat - 65536) % 1024))

/-- A JSON string literal. -/
def jsonStr (s : String) : List Char :=
  '"' :: (s.data.map jsonEscChar).flatten ++ ['"']

/-- `json.dumps` of a string-to-string-list dict with entries in the given
order (default separators; braces written with escapes). -/
def jsonDict (pairs : List (String × List String)) : List Char :=
  '\x7b' :: (List.intercalate [',', ' ']
    (pairs.map (fun p =>
      jsonStr p.1 ++ (':' :: ' ' :: '[' ::
        (List.intercalate [',', ' '] (p.2.map jsonStr))) ++ [']'])))
    ++ ['\x7d']

/-- Sort order of Python `sorted` / `json.dumps(sort_keys=True)` on the
dict entries: by key. -/
def pairLE (a b : String × List String) : Prop := a.1 ≤ b.1

instance : DecidableRel pairLE := fun a b => inferInstanceAs (Decidable (a.1 ≤ b.1))

instance : IsTotal (String × List String) pairLE := ⟨fun a b => le_total a.1 b.1⟩

instance : IsTrans (String × List String) pairLE := ⟨fun _ _ _ h1 h2 => le_trans h1 h2⟩

/-- UTF-8 encoding of the (ASCII-only) serialized dict: `s.encode("utf-8")`. -/
def strBytes (l : List Char) : List Nat := l.map Char.toNat

/-- The identifier/column-list view of the catalog serialized by
`catalog_signature`: `{t: self.tables[t]["cols"] for t in sorted(...)}`. -/
def pairOf (p : String × TableMeta) : String × List String := (p.1, p.2.cols)

/-- Embedding of `ExcelStore.catalog_signature`. -/
def catalog_signature (tables : List (String × TableMeta)) : String :=
  sha256hex16 (strBytes (jsonDict (List.insertionSort pairLE (tables.map pairOf))))

/-- A one-character-repeated column name of length `n`. -/
def colStr (n : Nat) : String := String.mk (List.replicate n 'a')

/-- A one-table, one-column catalog whose column name has length `n`;
`oneColCatalog m` and `oneColCatalog n` differ exactly by a column
renaming when `m` and `n` differ. -/
def oneColCatalog (n : Nat) : List (String × TableMeta) :=
  [("t", ⟨"f.xlsx", "s", 0, [colStr n]⟩)]

def hexIdx (c : Char) : Fin 16 := ⟨(hexChars.indexOf c) % 16, Nat.mod_lt _ (by omega)⟩

/-- Finite code of a 16-hex-character signature string. -/
def encode16 (s : String) : Fin 16 → Fin 16 := fun i => hexIdx (s.data.getD i '0')

/-! ## Query execution (`ExcelStore.run_sql`) and planning (`generate_sql`) -/

/-- The executed statement `run_sql` builds:
`f"SELECT * FROM ({sql}) q LIMIT {int(limit)}"`. -/
def wrapSql (v : String) (limit : Nat) : String :=
  "SELECT * FROM (" ++ v ++ ") q LIMIT " ++ String.mk (natToDec limit)

/-- Modelled from the spec: the wrapped form the spec's words claim, with
an `AS` keyword before the subquery alias `q`.  Used only to compare the
claimed statement text with the source's. -/
def wrapSqlSpec (v : String) (limit : Nat) : String :=
  "SELECT * FROM (" ++ v ++ ") AS q LIMIT " ++ String.mk (natToDec limit)

/-- Embedding of `ExcelStore.run_sql`.  `evalQ` gives the engine's
semantics for the validated inner query as its list of result rows; the
outer `LIMIT limit` clause of the executed statement truncates that list
(modelled from the spec's reading of the engine's LIMIT).  The returned
pair is (executed statement, result rows); `none` models the `ValueError`
propagated from `_validate_sql`. -/
def run_sql (evalQ : String → List α) (sql : String) (limit : Nat) :
    Option (String × List α) :=
  (validate_sql sql).map (fun v => (wrapSql v limit, (evalQ v).take limit))

/-- Embedding of `generate_sql` (llm_agent.py) from the planner's parsed
response on: `plannerSql` and `plannerExpl` are the `sql` and
`explanation` fields of the plan; the function sanitizes the SQL, strips
the explanation and returns the pair, `none` modelling the `ValueError`
raised by `_sanitize_sql` on a bad plan. -/
def generate_sql (plannerSql plannerExpl : String) : Option (String × String) :=
  (sanitize_sql plannerSql).map (fun v => (v, pyStrip plannerExpl))

/-! ## Basic lemmas about the string primitives -/

theorem dropWhile_head_false {p : Char → Bool} :
    ∀ {l : List Char} {a : Char} {as : List Char},
      l.dropWhile p = a :: as → p a = false := by
  intro l
  induction l with
  | nil => intro a as h; simp [List.dropWhile] at h
  | cons b bs ih =>
      intro a as h
      by_cases hp : p b
      · rw [List.dropWhile_cons, if_pos hp] at h
        exact ih h
      · rw [List.dropWhile_cons, if_neg hp] at h
        cases h
        exact Bool.of_not_eq_true hp

theorem dropWhile_idem (p : Char → Bool) (l : List Char) :
    (l.dropWhile p).dropWhile p = l.dropWhile p := by
  cases h : l.dropWhile p with
  | nil => simp
  | cons a as =>
      have ha := dropWhile_head_false h
      rw [List.dropWhile_cons, if_neg (by simp [ha])]

theorem dropWhile_eq_self_of_all {p : Char → Bool} {l : List Char}
    (h : ∀ c ∈ l, p c = false) : l.dropWhile p = l := by
  cases l with
  | nil => rfl
  | cons a as =>
      rw [List.dropWhile_cons, if_neg (by simp [h a (List.mem_cons_self a as)])]

theorem getLast?_dropWhile {p : Char → Bool} :
    ∀ l : List Char, l.dropWhile p ≠ [] → (l.dropWhile p).getLast? = l.getLast? := by
  intro l
  induction l with
  | nil => intro h; simp [List.dropWhile] at h
  | cons a as ih =>
      intro h
      by_cases hp : p a
      · rw [List.dropWhile_cons, if_pos hp] at h ⊢
        have has : as ≠ [] := by
          intro e; rw [e] at h; simp [List.dropWhile] at h
        obtain ⟨b, bs, rfl⟩ := List.exists_cons_of_ne_nil has
        rw [List.getLast?_cons_cons]
        exact ih h
      · rw [List.dropWhile_cons, if_neg hp]

theorem dropWhile_eq_self_of_head {p : Char → Bool} {l : List Char} {a : Char}
    (h : l.head? = some a) (ha : p a = false) : l.dropWhile p = l := by
  cases l with
  | nil => rfl
  | cons b bs =>
      have hb : b = a := by simpa using h
      subst hb
      rw [List.dropWhile_cons, if_neg (by simp [ha])]

theorem dropWhile_reverse_dropWhile (p : Char → Bool) (m : List Char) :
    ((m.dropWhile p).reverse.dropWhile p).reverse.dropWhile p
      = ((m.dropWhile p).reverse.dropWhile p).reverse := by
  cases hX : m.dropWhile p with
  | nil => simp
  | cons x xs =>
      have hx : p x = false := dropWhile_head_false hX
      cases hY : (x :: xs).reverse.dropWhile p with
      | nil => simp
      | cons y ys =>
          have hne : (x :: xs).reverse.dropWhile p ≠ [] := by
            rw [hY]; exact List.cons_ne_nil _ _
          have h1 : ((x :: xs).reverse.dropWhile p).getLast?
              = (x :: xs).reverse.getLast? := getLast?_dropWhile _ hne
          have h2 : (x :: xs).reverse.getLast? = some x := by
            rw [List.getLast?_reverse]; rfl
          have h3 : (y :: ys).reverse.head? = some x := by
            rw [List.head?_reverse, ← hY, h1, h2]
          exact dropWhile_eq_self_of_head h3 hx

theorem stripBy_idem (p : Char → Bool) (l : List Char) :
    stripBy p (stripBy p l) = stripBy p l := by
  unfold stripBy
  rw [dropWhile_reverse_dropWhile, List.reverse_reverse]
  exact dropWhile_reverse_dropWhile p l

theorem stripBy_all_false {p : Char → Bool} {l : List Char}
    (h : ∀ c ∈ l, p c = false) : stripBy p l = l := by
  unfold stripBy
  rw [dropWhile_eq_self_of_all h,
      dropWhile_eq_self_of_all (by intro c hc; exact h c (List.mem_reverse.mp hc)),
      List.reverse_reverse]

theorem stripBy_subset {p : Char → Bool} {l : List Char} :
    ∀ c ∈ stripBy p l, c ∈ l := by
  intro c hc
  unfold stripBy at hc
  rw [List.mem_reverse] at hc
  have h1 := (List.dropWhile_sublist (l := (l.dropWhile p).reverse) p).subset hc
  rw [List.mem_reverse] at h1
  exact (List.dropWhile_sublist p).subset h1

theorem pyStrip_idem (s : String) : pyStrip (pyStrip s) = pyStrip s := by
  unfold pyStrip
  rw [stripBy_idem]

theorem data_mk (l : List Char) : (String.mk l).data = l := rfl

theorem validate_sql_iff (s t : String) :
    validate_sql s = some t ↔
      (t = cleanSql s ∧ hasSemi t = false ∧ hasBannedKw t = false ∧
       startsOk t = true) := by
  unfold validate_sql
  constructor
  · intro h
    by_cases h1 : hasSemi (cleanSql s)
    · simp [h1] at h
    · by_cases h2 : hasBannedKw (cleanSql s)
      · simp [h1, h2] at h
      · by_cases h3 : startsOk (cleanSql s)
        · simp [h1, h2, h3] at h
          subst h
          exact ⟨rfl, by simpa using h1, by simpa using h2, h3⟩
        · simp [h1, h2, h3] at h
  · rintro ⟨rfl, h1, h2, h3⟩
    simp [h1, h2, h3]

theorem sanitize_eq_validate : sanitize_sql = validate_sql := rfl

theorem mk_data_eq (s : String) : String.mk s.data = s := rfl

theorem no_semi_chars {s : String} (h : hasSemi s = false) :
    ∀ c ∈ s.data, (c == ';') = false := by
  intro c hc
  cases hb : (c == ';') with
  | false => rfl
  | true =>
      have hany : s.data.any (fun c => c == ';') = true :=
        List.any_eq_true.mpr ⟨c, hc, hb⟩
      unfold hasSemi at h
      rw [h] at hany
      exact absurd hany (by simp)

theorem rstripSemis_of_no_semi {s : String} (h : hasSemi s = false) :
    rstripSemis s = s := by
  unfold rstripSemis
  rw [dropWhile_eq_self_of_all
        (by intro c hc; exact no_semi_chars h c (List.mem_reverse.mp hc)),
      List.reverse_reverse, mk_data_eq]

theorem pyStrip_cleanSql (s : String) : pyStrip (cleanSql s) = cleanSql s := by
  show pyStrip (pyStrip (rstripSemis (pyStrip s))) = cleanSql s
  rw [pyStrip_idem]
  rfl

theorem cleanSql_idem_of_no_semi {s : String} (h : hasSemi (cleanSql s) = false) :
    cleanSql (cleanSql s) = cleanSql s := by
  show pyStrip (rstripSemis (pyStrip (cleanSql s))) = cleanSql s
  rw [pyStrip_cleanSql, rstripSemis_of_no_semi h, pyStrip_cleanSql]

theorem validate_sql_fixed {s t : String} (h : validate_sql s = some t) :
    validate_sql t = some t := by
  obtain ⟨ht, h1, h2, h3⟩ := (validate_sql_iff s t).mp h
  subst ht
  exact (validate_sql_iff _ _).mpr ⟨(cleanSql_idem_of_no_semi h1).symm, h1, h2, h3⟩

theorem decDigit_not_semi (k : Nat) : (decDigit k == ';') = false := by
  unfold decDigit
  split <;> rfl

theorem natToDecAux_no_semi :
    ∀ fuel n : Nat, ∀ c ∈ natToDecAux fuel n, (c == ';') = false := by
  intro fuel
  induction fuel with
  | zero => intro n c hc; simp [natToDecAux] at hc
  | succ fuel ih =>
      intro n c hc
      unfold natToDecAux at hc
      by_cases h : n < 10
      · rw [if_pos h] at hc
        simp only [List.mem_singleton] at hc
        subst hc
        exact decDigit_not_semi n
      · rw [if_neg h] at hc
        rcases List.mem_append.mp hc with h1 | h2
        · exact ih (n / 10) c h1
        · simp only [List.mem_singleton] at h2
          subst h2
          exact decDigit_not_semi _

theorem natToDec_no_semi (n : Nat) : ∀ c ∈ natToDec n, (c == ';') = false :=
  natToDecAux_no_semi (n + 1) n

theorem wrapSql_no_semi {v : String} (lim : Nat) (hv : hasSemi v = false) :
    hasSemi (wrapSql v lim) = false := by
  have hd : ∀ c ∈ natToDec lim, (c == ';') = false := natToDec_no_semi lim
  unfold wrapSql hasSemi
  simp only [String.data_append, List.any_append, Bool.or_eq_false_iff, data_mk]
  refine ⟨⟨⟨by decide, hv⟩, by decide⟩, ?_⟩
  rw [List.any_eq_false]
  intro c hc
  simp [hd c hc]

theorem wrapSql_starts_select (v : String) (lim : Nat) :
    strStartsWith "select" (lowerStr (wrapSql v lim)) = true := by
  unfold strStartsWith lowerStr wrapSql
  rw [List.isPrefixOf_iff_prefix]
  simp only [data_mk, String.data_append, List.map_append]
  have h1 : ("select".data : List Char) <+: List.map lowerChar "SELECT * FROM (".data := by
    decide
  exact h1.trans (((List.prefix_append _ _).trans (List.prefix_append _ _)).trans
    (List.prefix_append _ _))

/-! ## Claim C1: both call sites validate before use -/

/-- C1: `run_sql` always passes its argument through `_validate_sql` before
anything reaches the query engine, and `generate_sql` always passes the
planner's output through `_sanitize_sql` before returning it; hence the
query the engine evaluates and the plan returned contain no remaining
statement terminator and no banned mutation keyword-prefix, and begin
(case-insensitively, after trimming) with select or with — and the full
executed statement likewise contains no terminator and begins with
select. -/
theorem sql_gate_guards_both_call_sites :
    (∀ (α : Type) (evalQ : String → List α) (s : String) (lim : Nat)
        (out : String × List α),
      run_sql evalQ s lim = some out →
        ∃ v, validate_sql s = some v ∧
          out.1 = wrapSql v lim ∧ out.2 = (evalQ v).take lim ∧
          hasSemi v = false ∧ hasBannedKw v = false ∧ startsOk v = true ∧
          hasSemi out.1 = false ∧
          strStartsWith "select" (lowerStr out.1) = true) ∧
    (∀ plannerSql plannerExpl out,
      generate_sql plannerSql plannerExpl = some out →
        sanitize_sql plannerSql = some out.1 ∧
        hasSemi out.1 = false ∧ hasBannedKw out.1 = false ∧
        startsOk out.1 = true) := by
  constructor
  · intro α evalQ s lim out h
    unfold run_sql at h
    rw [Option.map_eq_some'] at h
    obtain ⟨v, hv, hout⟩ := h
    obtain ⟨-, h1, h2, h3⟩ := (validate_sql_iff s v).mp hv
    subst hout
    exact ⟨v, hv, rfl, rfl, h1, h2, h3, wrapSql_no_semi lim h1,
      wrapSql_starts_select v lim⟩
  · intro ps pe out h
    unfold generate_sql at h
    rw [Option.map_eq_some'] at h
    obtain ⟨v, hv, hout⟩ := h
    rw [sanitize_eq_validate] at hv
    obtain ⟨-, h1, h2, h3⟩ := (validate_sql_iff ps v).mp hv
    subst hout
    exact ⟨by rw [sanitize_eq_validate]; exact hv, h1, h2, h3⟩

/-- Witness for C1 at a concrete planner output. -/
theorem sql_gate_guards_both_call_sites_witness :
    sanitize_sql "select 9" = some "select 9" ∧
    hasSemi "select 9" = false ∧ hasBannedKw "select 9" = false ∧
    startsOk "select 9" = true :=
  sql_gate_guards_both_call_sites.2 "select 9" "" ("select 9", "") (by decide)

/-! ## Claim C2: the validator's algorithm and test vectors -/

/-- C2 (amended: the cleanup removes every trailing statement terminator,
not at most one): the validator trims whitespace and trailing semicolons,
fails if a semicolon remains anywhere, fails if the lower-cased text
contains a banned mutation keyword-prefix followed by a space, fails
unless the lower-cased trimmed text begins with select or with, and
otherwise returns the trimmed text; the six quoted test vectors behave as
listed. -/
theorem validate_sql_characterization :
    (∀ s t : String, validate_sql s = some t ↔
        (t = cleanSql s ∧ hasSemi t = false ∧ hasBannedKw t = false ∧
         startsOk t = true)) ∧
    validate_sql "SELECT 1" = some "SELECT 1" ∧
    validate_sql "select * from t; drop table t" = none ∧
    validate_sql "DROP TABLE t" = none ∧
    validate_sql "UPDATE t SET x=1" = none ∧
    validate_sql "with c as (select 1) select * from c"
      = some "with c as (select 1) select * from c" ∧
    validate_sql "  select * from t  " = some "select * from t" :=
  ⟨validate_sql_iff, by decide, by decide, by decide, by decide, by decide,
   by decide⟩

/-- Witness for C2, applying the characterization at a concrete input. -/
theorem validate_sql_characterization_witness :
    validate_sql "SELECT 2" = some "SELECT 2" :=
  (validate_sql_characterization.1 "SELECT 2" "SELECT 2").mpr (by decide)

/-- C2 counterexample: on `"select 1;;"` the source validator strips both
trailing semicolons and accepts, while the claimed algorithm — strip at
most one terminator, then reject if one remains — rejects it. -/
theorem validate_sql_strips_all_trailing_semis :
    validate_sql "select 1;;" = some "select 1" ∧
    validate_sql_spec "select 1;;" = none :=
  ⟨by decide, by decide⟩

/-! ## Claim C3: wrapped execution and the row limit -/

/-- C3 (amended: the executed statement carries no `AS` before the alias
`q`): for every query accepted by validation and every limit `N`,
`run_sql` executes exactly `SELECT * FROM (<query>) q LIMIT <N>` and the
returned result never holds more than `N` rows, even when the inner query
produces more. -/
theorem run_sql_wraps_and_limits :
    ∀ (α : Type) (evalQ : String → List α) (s : String) (lim : Nat)
      (out : String × List α),
      run_sql evalQ s lim = some out →
        (∃ v, validate_sql s = some v ∧
          out.1 = "SELECT * FROM (" ++ v ++ ") q LIMIT "
                    ++ String.mk (natToDec lim)) ∧
        out.2.length ≤ lim := by
  intro α evalQ s lim out h
  unfold run_sql at h
  rw [Option.map_eq_some'] at h
  obtain ⟨v, hv, hout⟩ := h
  subst hout
  exact ⟨⟨v, hv, rfl⟩, by simp⟩

/-- Witness for C3: an inner query producing three rows is truncated to
the limit of two. -/
theorem run_sql_wraps_and_limits_witness :
    (∃ v, validate_sql "select 1" = some v ∧
      ("SELECT * FROM (select 1) q LIMIT 2", [10, 20]).1
        = "SELECT * FROM (" ++ v ++ ") q LIMIT " ++ String.mk (natToDec 2)) ∧
    ([10, 20] : List Nat).length ≤ 2 :=
  run_sql_wraps_and_limits Nat (fun _ => [10, 20, 30]) "select 1" 2
    ("SELECT * FROM (select 1) q LIMIT 2", [10, 20]) (by decide)

/-- C3 counterexample: at query `"SELECT 1"` and limit 200 the executed
statement reads `... (SELECT 1) q LIMIT 200`, not the claimed
`... (SELECT 1) AS q LIMIT 200`. -/
theorem run_sql_wrap_has_no_as :
    run_sql (fun _ => [(1 : Nat)]) "SELECT 1" 200
      = some ("SELECT * FROM (SELECT 1) q LIMIT 200", [1]) ∧
    wrapSql "SELECT 1" 200 ≠ wrapSqlSpec "SELECT 1" 200 ∧
    wrapSqlSpec "SELECT 1" 200 = "SELECT * FROM (SELECT 1) AS q LIMIT 200" :=
  ⟨by decide, by decide, by decide⟩

/-! ## Claim C10: validation is idempotent -/

/-- C10: for every input on which `_validate_sql` (equivalently
`_sanitize_sql`) succeeds, applying it again to the returned string
succeeds and returns the same string: every successful output is a fixed
point of the validator. -/
theorem validate_sql_idempotent :
    (∀ s t : String, validate_sql s = some t → validate_sql t = some t) ∧
    (∀ s t : String, sanitize_sql s = some t → sanitize_sql t = some t) := by
  refine ⟨fun s t h => validate_sql_fixed h, fun s t h => ?_⟩
  rw [sanitize_eq_validate] at h ⊢
  exact validate_sql_fixed h

/-- Witness for C10 at a concrete input whose cleanup is non-trivial. -/
theorem validate_sql_idempotent_witness :
    validate_sql "SELECT 3" = some "SELECT 3" :=
  validate_sql_idempotent.1 "  SELECT 3 ;" "SELECT 3" (by decide)

/-! ## Claim C8: name normalization -/

theorem collapseRuns_chars {p : Char → Bool} :
    ∀ {b : Bool} {l : List Char} {c : Char}, c ∈ collapseRuns p b l →
      c = '_' ∨ (c ∈ l ∧ p c = false) := by
  intro b l
  induction l generalizing b with
  | nil => intro c hc; simp [collapseRuns] at hc
  | cons a as ih =>
      intro c hc
      unfold collapseRuns at hc
      by_cases hp : p a
      · rw [if_pos hp] at hc
        cases b with
        | true =>
            rw [if_pos rfl] at hc
            rcases ih hc with h | ⟨h1, h2⟩
            · exact Or.inl h
            · exact Or.inr ⟨List.mem_cons_of_mem a h1, h2⟩
        | false =>
            rw [if_neg (by simp)] at hc
            rcases List.mem_cons.mp hc with h | h
            · exact Or.inl h
            · rcases ih h with h | ⟨h1, h2⟩
              · exact Or.inl h
              · exact Or.inr ⟨List.mem_cons_of_mem a h1, h2⟩
      · rw [if_neg hp] at hc
        rcases List.mem_cons.mp hc with h | h
        · subst h
          exact Or.inr ⟨List.mem_cons_self _ _, Bool.of_not_eq_true hp⟩
        · rcases ih h with h | ⟨h1, h2⟩
          · exact Or.inl h
          · exact Or.inr ⟨List.mem_cons_of_mem a h1, h2⟩

/-- C8: `safe_name` maps every input to a non-empty identifier of at most
80 characters drawn from letters, digits and underscore;
`"Customer ID (USD)"` normalizes to `"Customer_ID_USD"`, and empty or
all-symbol names fall back to the default `"table"`. -/
theorem safe_name_normalizes :
    (∀ s : String, safe_name s ≠ "" ∧ (safe_name s).length ≤ 80 ∧
      ∀ c ∈ (safe_name s).data, isWordChar c = true) ∧
    safe_name "Customer ID (USD)" = "Customer_ID_USD" ∧
    safe_name "" = "table" ∧
    safe_name "$%&" = "table" := by
  refine ⟨fun s => ?_, by decide, by decide, by decide⟩
  unfold safe_name
  by_cases he : (stripBy (fun c => c == '_')
      (collapseRuns (fun c => c == '_') false
        (collapseRuns (fun c => !isWordChar c) false
          (stripBy isPySpace s.data)))).isEmpty
  · rw [if_pos he]
    exact ⟨by decide, by decide, by decide⟩
  · rw [if_neg he]
    refine ⟨?_, ?_, ?_⟩
    · intro h
      have hd : (stripBy (fun c => c == '_')
          (collapseRuns (fun c => c == '_') false
            (collapseRuns (fun c => !isWordChar c) false
              (stripBy isPySpace s.data)))).take 80 = [] :=
        congrArg String.data h
      rcases List.take_eq_nil_iff.mp hd with h80 | hnil
      · exact absurd h80 (by decide)
      · rw [hnil] at he
        exact he rfl
    · show (List.take 80 _).length ≤ 80
      rw [List.length_take]
      omega
    · intro c hc
      have h1 := List.take_subset 80 _ hc
      have h2 := stripBy_subset _ h1
      rcases collapseRuns_chars h2 with h | ⟨h3, h4⟩
      · subst h; decide
      · rcases collapseRuns_chars h3 with h | ⟨h5, h6⟩
        · subst h; decide
        · simpa using h6

/-- Witness for C8 at the concrete input `"a b"`. -/
theorem safe_name_normalizes_witness :
    safe_name "a b" ≠ "" ∧ isWordChar 'a' = true :=
  ⟨(safe_name_normalizes.1 "a b").1,
   (safe_name_normalizes.1 "a b").2.2 'a' (by decide)⟩

/-! ## Claim C6: `add_feedback` update semantics -/

/-- C6: `add_feedback` updates exactly the records whose id matches and is
a no-op when none does; the rating column is written if and only if a
rating is explicitly supplied — omission keeps the stored rating, two
calls with ratings leave the second one — while feedback_text and
corrected_sql are always overwritten (even with empty string or null) and
every other column of the record is unchanged. -/
theorem add_feedback_update_semantics :
    (∀ (db : List FeedbackRecord) (recordId : Nat) (rating : Option Int)
        (ftext : String) (csql : Option String),
      (∀ r ∈ db, r.id ≠ recordId) →
        add_feedback db recordId rating ftext csql = db) ∧
    (∀ db recordId rating ftext csql,
      (add_feedback db recordId rating ftext csql).length = db.length) ∧
    (∀ db recordId rating ftext csql (i : Nat) (r : FeedbackRecord),
      db[i]? = some r → r.id ≠ recordId →
        (add_feedback db recordId rating ftext csql)[i]? = some r) ∧
    (∀ db recordId rating ftext csql (i : Nat) (r : FeedbackRecord),
      db[i]? = some r → r.id = recordId →
        (add_feedback db recordId rating ftext csql)[i]?
          = some (applyFeedback rating ftext csql r)) ∧
    (∀ (v : Int) (ftext : String) (csql : Option String) (r : FeedbackRecord),
      (applyFeedback (some v) ftext csql r).rating = some v) ∧
    (∀ ftext csql (r : FeedbackRecord),
      (applyFeedback none ftext csql r).rating = r.rating) ∧
    (∀ rating ftext csql (r : FeedbackRecord),
      (applyFeedback rating ftext csql r).feedback_text = some ftext ∧
      (applyFeedback rating ftext csql r).corrected_sql = csql ∧
      (applyFeedback rating ftext csql r).id = r.id ∧
      (applyFeedback rating ftext csql r).question = r.question ∧
      (applyFeedback rating ftext csql r).catalog_sig = r.catalog_sig ∧
      (applyFeedback rating ftext csql r).generated_sql = r.generated_sql ∧
      (applyFeedback rating ftext csql r).created_at = r.created_at) ∧
    (∀ db recordId (v1 v2 : Int) t1 t2 c1 c2,
      add_feedback (add_feedback db recordId (some v1) t1 c1) recordId
          (some v2) t2 c2
        = add_feedback db recordId (some v2) t2 c2) ∧
    (∀ db recordId (v : Int) t1 t2 c1 c2,
      add_feedback (add_feedback db recordId (some v) t1 c1) recordId
          none t2 c2
        = add_feedback db recordId (some v) t2 c2) := by
  refine ⟨?_, ?_, ?_, ?_, ?_, ?_, ?_, ?_, ?_⟩
  · intro db recordId rating ftext csql h
    unfold add_feedback
    have h2 : ∀ r ∈ db,
        (if r.id = recordId then applyFeedback rating ftext csql r else r) = r := by
      intro r hr
      rw [if_neg (h r hr)]
    rw [List.map_congr_left h2]
    exact List.map_id db
  · intro db recordId rating ftext csql
    unfold add_feedback
    rw [List.length_map]
  · intro db recordId rating ftext csql i r hi hne
    unfold add_feedback
    rw [List.getElem?_map, hi]
    simp [if_neg hne]
  · intro db recordId rating ftext csql i r hi heq
    unfold add_feedback
    rw [List.getElem?_map, hi]
    simp [if_pos heq]
  · intro v ftext csql r; rfl
  · intro ftext csql r; rfl
  · intro rating ftext csql r
    exact ⟨rfl, rfl, rfl, rfl, rfl, rfl, rfl⟩
  · intro db recordId v1 v2 t1 t2 c1 c2
    unfold add_feedback
    rw [List.map_map]
    apply List.map_congr_left
    intro r hr
    simp only [Function.comp_apply]
    by_cases hid : r.id = recordId
    · rw [if_pos hid,
          if_pos (show (applyFeedback (some v1) t1 c1 r).id = recordId from hid),
          if_pos hid]
      rfl
    · simp only [if_neg hid]
  · intro db recordId v t1 t2 c1 c2
    unfold add_feedback
    rw [List.map_map]
    apply List.map_congr_left
    intro r hr
    simp only [Function.comp_apply]
    by_cases hid : r.id = recordId
    · rw [if_pos hid,
          if_pos (show (applyFeedback (some v) t1 c1 r).id = recordId from hid),
          if_pos hid]
      rfl
    · simp only [if_neg hid]

/-- Witness for C6: updating a missing id is a no-op on a concrete log. -/
theorem add_feedback_update_semantics_witness :
    add_feedback [⟨1, "q", "sig", "g", none, none, none, 0⟩] 2 (some 1) "" none
      = [⟨1, "q", "sig", "g", none, none, none, 0⟩] :=
  add_feedback_update_semantics.1 [⟨1, "q", "sig", "g", none, none, none, 0⟩]
    2 (some 1) "" none (by decide)

/-! ## Claim C5: `best_examples` -/

/-- C5: `best_examples` returns at most `limit` records; every returned
record carries the requested fingerprint and rating exactly +1 (no other
fingerprint or rating is ever returned); and the result is sorted by
`exRel`: records with a non-null, non-blank corrected query come before
records without one, and inside each group records are ordered
most-recent-first. -/
theorem best_examples_spec :
    ∀ (db : List FeedbackRecord) (sig : String) (limit : Nat),
      (best_examples db sig limit).length ≤ limit ∧
      (∀ r ∈ best_examples db sig limit,
        r.catalog_sig = sig ∧ r.rating = some 1) ∧
      List.Sorted exRel (best_examples db sig limit) := by
  intro db sig limit
  refine ⟨?_, ?_, ?_⟩
  · unfold best_examples
    simp
  · intro r hr
    unfold best_examples at hr
    have h1 := List.take_subset limit _ hr
    have h2 := (List.perm_insertionSort exRel _).subset h1
    have h3 := List.mem_filter.mp h2
    have h4 := h3.2
    simp only [Bool.and_eq_true, beq_iff_eq] at h4
    exact h4
  · unfold best_examples
    exact List.Pairwise.sublist (List.take_sublist _ _)
      (List.sorted_insertionSort exRel _)

/-- Witness for C5 on a one-record log. -/
theorem best_examples_spec_witness :
    (⟨1, "q", "s", "g", none, some 1, none, 5⟩ : FeedbackRecord).catalog_sig = "s" ∧
    (⟨1, "q", "s", "g", none, some 1, none, 5⟩ : FeedbackRecord).rating = some 1 :=
  (best_examples_spec [⟨1, "q", "s", "g", none, some 1, none, 5⟩] "s" 20).2.1
    _ (by decide)

/-! ## Claim C7: ingestion adds exactly one fresh identifier per sheet -/

theorem decDigit_val {m : Nat} (h : m < 10) : (decDigit m).toNat - 48 = m := by
  interval_cases m <;> rfl

theorem decVal_natToDecAux :
    ∀ fuel n : Nat, n < 10 ^ fuel → decVal (natToDecAux fuel n) = n := by
  intro fuel
  induction fuel with
  | zero =>
      intro n hn
      simp only [pow_zero, Nat.lt_one_iff] at hn
      subst hn
      rfl
  | succ fuel ih =>
      intro n hn
      unfold natToDecAux
      by_cases h : n < 10
      · rw [if_pos h]
        show 0 * 10 + ((decDigit n).toNat - 48) = n
        rw [decDigit_val h]
        omega
      · rw [if_neg h]
        have hdiv : n / 10 < 10 ^ fuel := by
          rw [Nat.div_lt_iff_lt_mul (by omega)]
          calc n < 10 ^ (fuel + 1) := hn
            _ = 10 ^ fuel * 10 := by rw [pow_succ]
        have ihd := ih (n / 10) hdiv
        unfold decVal at ihd ⊢
        rw [List.foldl_append, ihd]
        show (n / 10) * 10 + ((decDigit (n % 10)).toNat - 48) = n
        rw [decDigit_val (Nat.mod_lt _ (by omega))]
        omega

theorem decVal_natToDec (n : Nat) : decVal (natToDec n) = n :=
  decVal_natToDecAux (n + 1) n
    (lt_of_lt_of_le (Nat.lt_pow_self (by omega) n)
      (Nat.pow_le_pow_right (by omega) (Nat.le_succ n)))

theorem natToDec_inj {m n : Nat} (h : natToDec m = natToDec n) : m = n := by
  have hm := decVal_natToDec m
  rw [h, decVal_natToDec n] at hm
  exact hm.symm

theorem candName_inj {orig : String} {i j : Nat}
    (h : candName orig i = candName orig j) : i = j := by
  unfold candName at h
  have hd := congrArg String.data h
  simp only [String.data_append, data_mk] at hd
  exact natToDec_inj (List.append_cancel_left hd)

theorem exists_fresh_cand (existing : List String) (orig : String) :
    ∃ j, 2 ≤ j ∧ j < existing.length + 3 ∧ candName orig j ∉ existing := by
  by_contra hc
  push_neg at hc
  have hnodup : ((List.range (existing.length + 1)).map
      (fun k => candName orig (k + 2))).Nodup := by
    refine List.Nodup.map ?_ (List.nodup_range _)
    intro a b hab
    have := candName_inj hab
    omega
  have hsub : ((List.range (existing.length + 1)).map
      (fun k => candName orig (k + 2))) ⊆ existing := by
    intro x hx
    rcases List.mem_map.mp hx with ⟨k, hk, rfl⟩
    rw [List.mem_range] at hk
    exact hc (k + 2) (by omega) (by omega)
  have hle := (hnodup.subperm hsub).length_le
  simp only [List.length_map, List.length_range] at hle
  omega

theorem uniquifyAux_fresh (existing : List String) (orig : String) :
    ∀ fuel i : Nat,
      (∃ j, i ≤ j ∧ j < i + fuel ∧ candName orig j ∉ existing) →
      uniquifyAux existing orig fuel i ∉ existing := by
  intro fuel
  induction fuel with
  | zero =>
      rintro i ⟨j, h1, h2, h3⟩
      exfalso
      omega
  | succ fuel ih =>
      rintro i ⟨j, h1, h2, h3⟩
      unfold uniquifyAux
      by_cases hmem : candName orig i ∈ existing
      · rw [if_pos hmem]
        apply ih
        refine ⟨j, ?_, by omega, h3⟩
        rcases Nat.eq_or_lt_of_le h1 with rfl | h
        · exact absurd hmem h3
        · omega
      · rw [if_neg hmem]
        exact hmem

theorem uniquify_fresh (existing : List String) (orig : String) :
    uniquify existing orig ∉ existing := by
  unfold uniquify
  by_cases h : orig ∈ existing
  · rw [if_pos h]
    obtain ⟨j, h1, h2, h3⟩ := exists_fresh_cand existing orig
    exact uniquifyAux_fresh existing orig (existing.length + 1) 2
      ⟨j, h1, by omega, h3⟩
  · rw [if_neg h]
    exact h

theorem addSheets_ok :
    ∀ (sheets : List Sheet) (fileName base : String) (st : Store),
      ∃ news : List (String × TableMeta),
        (addSheets fileName base st (sheets.map Except.ok)).2 = none ∧
        (addSheets fileName base st (sheets.map Except.ok)).1.tables
          = st.tables ++ news ∧
        news.length = sheets.length ∧
        List.Forall₂ (fun (sh : Sheet) (p : String × TableMeta) =>
          p.2.file = fileName ∧ p.2.sheet = sh.sname ∧
          p.2.rows = sh.grid.rows ∧ p.2.cols = sh.grid.cols.map safe_name)
          sheets news ∧
        ((st.tables.map Prod.fst).Nodup →
          ((st.tables ++ news).map Prod.fst).Nodup) := by
  intro sheets
  induction sheets with
  | nil =>
      intro fileName base st
      exact ⟨[], rfl, by simp [addSheets], rfl, List.Forall₂.nil,
        by simp⟩
  | cons sh rest ih =>
      intro fileName base st
      obtain ⟨news, h1, h2, h3, h4, h5⟩ :=
        ih fileName base (registerSheet fileName base st sh)
      have hreg : (registerSheet fileName base st sh).tables
          = st.tables ++
            [(uniquify (st.tables.map Prod.fst)
                (safe_name (base ++ "__" ++ sh.sname)),
              ⟨fileName, sh.sname, sh.grid.rows, sh.grid.cols.map safe_name⟩)] := rfl
      refine ⟨(uniquify (st.tables.map Prod.fst)
          (safe_name (base ++ "__" ++ sh.sname)),
        ⟨fileName, sh.sname, sh.grid.rows, sh.grid.cols.map safe_name⟩) :: news,
        h1, ?_, by simpa using h3, List.Forall₂.cons ⟨rfl, rfl, rfl, rfl⟩ h4, ?_⟩
      · show (addSheets fileName base (registerSheet fileName base st sh)
            (rest.map Except.ok)).1.tables = _
        rw [h2, hreg, List.append_assoc]
        rfl
      · intro hnd
        have hfresh := uniquify_fresh (st.tables.map Prod.fst)
          (safe_name (base ++ "__" ++ sh.sname))
        have hnd2 : ((registerSheet fileName base st sh).tables.map Prod.fst).Nodup := by
          rw [hreg, List.map_append]
          rw [List.nodup_append]
          refine ⟨hnd, List.nodup_singleton _, ?_⟩
          intro a ha hb
          simp only [List.map_cons, List.map_nil, List.mem_singleton] at hb
          subst hb
          exact hfresh ha
        have := h5 hnd2
        rw [hreg, List.append_assoc] at this
        exact this

/-- C7: for every successfully parsed workbook with `N` sheets,
`add_excel_file` adds exactly `N` catalog entries, each under an
identifier fresh for the catalog so far (collisions resolved by numeric
suffixes), with recorded row count and column list equal to the parsed
grid's; with distinct identifiers before, the catalog's identifiers stay
pairwise distinct. -/
theorem add_excel_file_ingestion :
    ∀ (st : Store) (fileName : String) (sheets : List Sheet),
      ∃ news : List (String × TableMeta),
        (add_excel_file st fileName (Except.ok (sheets.map Except.ok))).2 = none ∧
        (add_excel_file st fileName (Except.ok (sheets.map Except.ok))).1.tables
          = st.tables ++ news ∧
        news.length = sheets.length ∧
        List.Forall₂ (fun (sh : Sheet) (p : String × TableMeta) =>
          p.2.file = fileName ∧ p.2.sheet = sh.sname ∧
          p.2.rows = sh.grid.rows ∧ p.2.cols = sh.grid.cols.map safe_name)
          sheets news ∧
        ((st.tables.map Prod.fst).Nodup →
          ((st.tables ++ news).map Prod.fst).Nodup) := by
  intro st fileName sheets
  exact addSheets_ok sheets fileName (safe_name (dropExt fileName)) st

/-- Witness for C7: ingesting one sheet into an empty store adds exactly
its table with matching metadata and distinct identifiers. -/
theorem add_excel_file_ingestion_witness :
    ∃ news : List (String × TableMeta),
      (add_excel_file ⟨[], []⟩ "book.xlsx"
        (Except.ok ([⟨"S1", ⟨["a b"], 3⟩⟩].map Except.ok))).2 = none ∧
      (add_excel_file ⟨[], []⟩ "book.xlsx"
        (Except.ok ([⟨"S1", ⟨["a b"], 3⟩⟩].map Except.ok))).1.tables
        = ([] : List (String × TableMeta)) ++ news ∧
      news.length = 1 ∧
      List.Forall₂ (fun (sh : Sheet) (p : String × TableMeta) =>
        p.2.file = "book.xlsx" ∧ p.2.sheet = sh.sname ∧
        p.2.rows = sh.grid.rows ∧ p.2.cols = sh.grid.cols.map safe_name)
        [⟨"S1", ⟨["a b"], 3⟩⟩] news ∧
      ((([] : List (String × TableMeta)).map Prod.fst).Nodup →
        ((([] : List (String × TableMeta)) ++ news).map Prod.fst).Nodup) := by
  have h := add_excel_file_ingestion ⟨[], []⟩ "book.xlsx" [⟨"S1", ⟨["a b"], 3⟩⟩]
  simpa using h

/-! ## Claim C9: no error leaves the catalog partially mutated -/

theorem registerSheet_consistent {st : Store} (fileName base : String) (sh : Sheet)
    (h : consistentStore st) : consistentStore (registerSheet fileName base st sh) := by
  unfold consistentStore at h ⊢
  exact List.rel_append h (List.Forall₂.cons ⟨rfl, rfl, rfl⟩ List.Forall₂.nil)

theorem addSheets_consistent :
    ∀ (items : List (Except String Sheet)) (fileName base : String) (st : Store),
      consistentStore st →
      consistentStore (addSheets fileName base st items).1 ∧
      ∃ news, (addSheets fileName base st items).1.tables = st.tables ++ news := by
  intro items
  induction items with
  | nil =>
      intro fileName base st h
      exact ⟨h, [], by simp [addSheets]⟩
  | cons item rest ih =>
      intro fileName base st h
      cases item with
      | error e => exact ⟨h, [], by simp [addSheets]⟩
      | ok sh =>
          obtain ⟨hc, news, hn⟩ :=
            ih fileName base (registerSheet fileName base st sh)
              (registerSheet_consistent fileName base sh h)
          refine ⟨hc, ?_⟩
          show ∃ news2, (addSheets fileName base
            (registerSheet fileName base st sh) rest).1.tables = _ ++ news2
          rw [hn]
          exact ⟨_, by rw [show (registerSheet fileName base st sh).tables
            = st.tables ++ _ from rfl, List.append_assoc]⟩

/-- C9: no error path of `add_excel_file` leaves the catalog partially
mutated: whether parsing fails up front, a sheet fails mid-loop, or every
sheet succeeds, each sheet is either fully registered — engine table and
complete catalog metadata, agreeing on identifier, columns and row count —
or absent, and the previously registered catalog is preserved as a
prefix. -/
theorem add_excel_file_atomicity :
    ∀ (st : Store) (fileName : String)
      (parsed : Except String (List (Except String Sheet))),
      consistentStore st →
      consistentStore (add_excel_file st fileName parsed).1 ∧
      ∃ news, (add_excel_file st fileName parsed).1.tables = st.tables ++ news := by
  intro st fileName parsed h
  cases parsed with
  | error e => exact ⟨h, [], by simp [add_excel_file]⟩
  | ok sheets =>
      exact addSheets_consistent sheets fileName (safe_name (dropExt fileName)) st h

/-- Witness for C9: a failing parse on a consistent one-table store leaves
it unchanged and consistent. -/
theorem add_excel_file_atomicity_witness :
    consistentStore (add_excel_file
      ⟨[("t", ⟨["c"], 2⟩)], [("t", ⟨"f.xlsx", "s", 2, ["c"]⟩)]⟩ "f.xlsx"
      (Except.error "bad bytes")).1 ∧
    ∃ news, (add_excel_file
      ⟨[("t", ⟨["c"], 2⟩)], [("t", ⟨"f.xlsx", "s", 2, ["c"]⟩)]⟩ "f.xlsx"
      (Except.error "bad bytes")).1.tables
        = [("t", ⟨"f.xlsx", "s", 2, ["c"]⟩)] ++ news :=
  add_excel_file_atomicity
    ⟨[("t", ⟨["c"], 2⟩)], [("t", ⟨"f.xlsx", "s", 2, ["c"]⟩)]⟩ "f.xlsx"
    (Except.error "bad bytes")
    (List.Forall₂.cons ⟨rfl, rfl, rfl⟩ List.Forall₂.nil)

/-! ## Claim C4: the catalog signature -/

/-- Strict key order on serialized catalog entries. -/
def pairLT (a b : String × List String) : Prop := a.1 < b.1

instance : IsAntisymm (String × List String) pairLT :=
  ⟨fun _ _ h1 h2 => absurd h2 (lt_asymm h1)⟩

theorem sorted_strict_of_nodup_keys {l : List (String × List String)}
    (hnd : (l.map Prod.fst).Nodup) (hs : List.Sorted pairLE l) :
    l.Pairwise pairLT := by
  have hne : l.Pairwise (fun a b : String × List String => a.1 ≠ b.1) :=
    List.pairwise_map.mp hnd
  exact (hs.and hne).imp (fun hab => lt_of_le_of_ne hab.1 hab.2)

theorem insertionSort_key_eq_of_perm {l1 l2 : List (String × List String)}
    (hnd : (l1.map Prod.fst).Nodup) (h : l1.Perm l2) :
    List.insertionSort pairLE l1 = List.insertionSort pairLE l2 := by
  have hp : (List.insertionSort pairLE l1).Perm (List.insertionSort pairLE l2) :=
    (List.perm_insertionSort pairLE l1).trans
      (h.trans (List.perm_insertionSort pairLE l2).symm)
  have hnd2 : (l2.map Prod.fst).Nodup := ((h.map Prod.fst).nodup_iff).mp hnd
  have hnds1 : ((List.insertionSort pairLE l1).map Prod.fst).Nodup :=
    (((List.perm_insertionSort pairLE l1).map Prod.fst).nodup_iff).mpr hnd
  have hnds2 : ((List.insertionSort pairLE l2).map Prod.fst).Nodup :=
    (((List.perm_insertionSort pairLE l2).map Prod.fst).nodup_iff).mpr hnd2
  exact List.eq_of_perm_of_sorted hp
    (sorted_strict_of_nodup_keys hnds1 (List.sorted_insertionSort pairLE l1))
    (sorted_strict_of_nodup_keys hnds2 (List.sorted_insertionSort pairLE l2))

/-- C4 (amended: purity and order-independence hold, but guaranteed change
cannot — the 64-bit truncated digest has collisions, see the
counterexample): `catalog_signature` is a pure function of the
(table identifier, column list) pairs: two catalogs carrying the same
pairs, in whatever registration order, produce the same signature. -/
theorem catalog_signature_order_independent :
    ∀ c1 c2 : List (String × TableMeta),
      ((c1.map pairOf).map Prod.fst).Nodup →
      (c1.map pairOf).Perm (c2.map pairOf) →
      catalog_signature c1 = catalog_signature c2 := by
  intro c1 c2 hnd hperm
  unfold catalog_signature
  rw [insertionSort_key_eq_of_perm hnd hperm]

/-- Witness for C4: swapping the registration order of two tables leaves
the signature unchanged. -/
theorem catalog_signature_order_independent_witness :
    catalog_signature
        [("a", ⟨"f.xlsx", "s1", 1, ["x"]⟩), ("b", ⟨"f.xlsx", "s2", 2, ["y"]⟩)]
      = catalog_signature
        [("b", ⟨"f.xlsx", "s2", 2, ["y"]⟩), ("a", ⟨"f.xlsx", "s1", 1, ["x"]⟩)] :=
  catalog_signature_order_independent _ _ (by decide) (by decide)

theorem hexDigit_mem (n : Nat) : hexDigit n ∈ hexChars := by
  unfold hexDigit
  have h : n % 16 < hexChars.length := Nat.mod_lt _ (by decide)
  rw [List.getD_eq_getElem?_getD, List.getElem?_eq_getElem h]
  simp only [Option.getD_some]
  exact List.getElem_mem h

theorem wordHex_mem {w : Nat} {ch : Char} (h : ch ∈ wordHex w) : ch ∈ hexChars := by
  simp only [wordHex, List.mem_cons, List.not_mem_nil, or_false] at h
  rcases h with rfl | rfl | rfl | rfl | rfl | rfl | rfl | rfl <;> exact hexDigit_mem _

theorem digestHex_mem {st : H8} {ch : Char} (h : ch ∈ digestHex st) :
    ch ∈ hexChars := by
  simp only [digestHex, List.mem_append, or_assoc] at h
  rcases h with h | h | h | h | h | h | h | h <;> exact wordHex_mem h

theorem digestHex_length (st : H8) : (digestHex st).length = 64 := by
  simp [digestHex, wordHex]

theorem sig_shape (c : List (String × TableMeta)) :
    (catalog_signature c).data.length = 16 ∧
    ∀ ch ∈ (catalog_signature c).data, ch ∈ hexChars := by
  unfold catalog_signature sha256hex16
  rw [data_mk]
  constructor
  · rw [List.length_take, digestHex_length]
    omega
  · intro ch hc
    exact digestHex_mem (List.take_subset 16 _ hc)

theorem hexIdx_inj :
    ∀ c1 ∈ hexChars, ∀ c2 ∈ hexChars, hexIdx c1 = hexIdx c2 → c1 = c2 := by
  decide

theorem encode16_inj {s1 s2 : String}
    (hl1 : s1.data.length = 16) (hx1 : ∀ ch ∈ s1.data, ch ∈ hexChars)
    (hl2 : s2.data.length = 16) (hx2 : ∀ ch ∈ s2.data, ch ∈ hexChars)
    (h : encode16 s1 = encode16 s2) : s1 = s2 := by
  have hdata : s1.data = s2.data := by
    apply List.ext_getElem (by omega)
    intro i h1 h2
    have hi : i < 16 := by omega
    have hfun : hexIdx (s1.data.getD i '0') = hexIdx (s2.data.getD i '0') := by
      simpa [encode16] using congrFun h ⟨i, hi⟩
    rw [List.getD_eq_getElem?_getD, List.getD_eq_getElem?_getD,
        List.getElem?_eq_getElem (show i < s1.data.length by omega),
        List.getElem?_eq_getElem (show i < s2.data.length by omega),
        Option.getD_some, Option.getD_some] at hfun
    exact hexIdx_inj _ (hx1 _ (List.getElem_mem h1)) _ (hx2 _ (List.getElem_mem h2))
      hfun
  calc s1 = String.mk s1.data := (mk_data_eq s1).symm
    _ = String.mk s2.data := by rw [hdata]
    _ = s2 := mk_data_eq s2

/-- C4 counterexample (the negation of the distinctness half): there are
two single-table catalogs that differ exactly by renaming the one column
and still share the signature — an injection of the infinitely many
column names into the 16-hex-character (64-bit) truncated digest is
impossible. -/
theorem catalog_signature_collides :
    ∃ m n : Nat, oneColCatalog m ≠ oneColCatalog n ∧
      catalog_signature (oneColCatalog m) = catalog_signature (oneColCatalog n) := by
  obtain ⟨m, n, hmn, he⟩ :=
    Finite.exists_ne_map_eq_of_infinite
      (fun k : Nat => encode16 (catalog_signature (oneColCatalog k)))
  have h1 := sig_shape (oneColCatalog m)
  have h2 := sig_shape (oneColCatalog n)
  refine ⟨m, n, ?_, encode16_inj h1.1 h1.2 h2.1 h2.2 he⟩
  intro hcat
  apply hmn
  have hcols : colStr m = colStr n := by
    have := congrArg (fun l => l.headD ("", ⟨"", "", 0, []⟩)) hcat
    simp only [oneColCatalog, List.headD_cons] at this
    have hmeta := congrArg Prod.snd this
    have := congrArg TableMeta.cols hmeta
    simpa using this
  have hlen := congrArg (fun s => s.data.length) hcols
  simpa [colStr, data_mk] using hlen
